import Mathlib

/-!
Verification of the segmentation and retrieval subsystem of the
Spice and Ember restaurant chatbot (chunker.py and retriever.py).

The token counter (tiktoken in the source) is an external oracle; all
definitions are parametrized by an arbitrary counter `tc : String → Nat`.
Concrete evaluations use `tcWords`, which counts whitespace-separated
words and agrees with the cl100k_base tokenizer on the short all-ASCII
inputs used below.
-/

/-- Metadata values stored in a document's or chunk's metadata mapping
(Python dict values used by the source: ints and strings). -/
inductive MVal where
  | nat (n : Nat)
  | str (s : String)
deriving DecidableEq

/-- A metadata mapping, modelling a Python dict `str -> value`:
a key is either absent (`none`) or bound to one value. -/
def Meta : Type := String → Option MVal

/-- Model of a Python dict update `{**m, k: v}` restricted to one key. -/
def mput (m : Meta) (k : String) (v : MVal) : Meta :=
  fun k2 => if k2 = k then some v else m k2

/-- Model of Python `m.get(k, d)`. -/
def mgetD (m : Meta) (k : String) (d : MVal) : MVal :=
  (m k).getD d

/-- The empty metadata mapping. -/
def memp : Meta := fun _ => none

/-- A loaded document: `{"page_content": ..., "metadata": ...}`. -/
structure Doc where
  page_content : String
  metadata : Meta

/-- The Chunk dataclass of chunker.py. -/
structure Chunk where
  text : String
  metadata : Meta
  token_count : Nat

/-- Default chunk used with `List.getD`. -/
def defChunk : Chunk := ⟨"", memp, 0⟩

/- ── Character-level string utilities (Python string semantics) ── -/

/-- Whitespace test, modelling Python `\s` on ASCII text. -/
def isWs (c : Char) : Bool := c.isWhitespace

/-- Boolean list-prefix test. -/
def listPre : List Char → List Char → Bool
  | [], _ => true
  | _ :: _, [] => false
  | a :: as, b :: bs => a = b && listPre as bs

/-- Python substring containment `needle in hay`. -/
def containsSub (needle hay : String) : Bool :=
  hay.data.tails.any (fun t => listPre needle.data t)

/-- Python `s.lower()` on ASCII text. -/
def pyLower (s : String) : String := String.mk (s.data.map Char.toLower)

/-- Strip whitespace from both ends of a character list. -/
def stripList (l : List Char) : List Char :=
  ((l.dropWhile isWs).reverse.dropWhile isWs).reverse

/-- Python `s.strip()`. -/
def pyStrip (s : String) : String := String.mk (stripList s.data)

/-- Accumulating scan splitting a character list into maximal
whitespace-free words; `cur` holds the current word reversed. -/
def wordsAux : List Char → List Char → List (List Char)
  | [], cur => if cur = [] then [] else [cur.reverse]
  | c :: rest, cur =>
    if isWs c then
      if cur = [] then wordsAux rest [] else cur.reverse :: wordsAux rest []
    else wordsAux rest (c :: cur)

/-- Split a character list into maximal whitespace-free words,
modelling Python `s.split()` with no argument. -/
def wordsOf (l : List Char) : List (List Char) := wordsAux l []

/-- Python `text.split()` returning strings. -/
def pyWords (s : String) : List String := (wordsOf s.data).map String.mk

/-- Word-count token oracle used for concrete evaluations. -/
def tcWords (s : String) : Nat := (wordsOf s.data).length

/-- If `pre` is a prefix of the second list, return the remainder. -/
def stripPre : List Char → List Char → Option (List Char)
  | [], l => some l
  | _ :: _, [] => none
  | a :: as, b :: bs => if a = b then stripPre as bs else none

/-- Split at each occurrence of a non-empty separator; the fuel is one
unit per remaining character, always sufficient since a separator match
consumes at least one character. -/
def splitOnF (sep : List Char) : Nat → List Char → List Char → List (List Char)
  | _, [], cur => [cur.reverse]
  | 0, l, cur => [cur.reverse ++ l]
  | fuel + 1, c :: rest, cur =>
    match stripPre sep (c :: rest) with
    | some rem => cur.reverse :: splitOnF sep fuel rem []
    | none => splitOnF sep fuel rest (c :: cur)

/-- Python `text.split(sep)` for a fixed non-empty separator. -/
def pySplit (sep : String) (s : String) : List String :=
  if sep.data = [] then [s]
  else (splitOnF sep.data s.data.length s.data []).map String.mk

/-- Python `s[-n:]` on strings (for `n = 0` the whole string). -/
def pyTakeLastStr (n : Nat) (s : String) : String :=
  if n = 0 then s else String.mk (s.data.drop (s.data.length - n))

/-- Python `l[-n:]` on lists (for `n = 0` the whole list). -/
def pyTakeLastList {α : Type} (n : Nat) (l : List α) : List α :=
  if n = 0 then l else l.drop (l.length - n)

/-- Python `" ".join(ws)`. -/
def joinSpace : List String → String
  | [] => ""
  | [s] => s
  | s :: rest => s ++ " " ++ joinSpace rest

/-- Python slice `l[a:b]` for natural bounds. -/
def pySlice {α : Type} (a b : Nat) (l : List α) : List α :=
  (l.take b).drop a

/- ── chunker.py ── -/

/-- chunk_passthrough of chunker.py: wraps the document as one chunk,
adding `chunk_index` and `chunk_strategy` (and no other keys). -/
def chunk_passthrough (tc : String → Nat) (doc : Doc) : List Chunk :=
  let text := doc.page_content
  let tokens := tc text
  [⟨text,
    mput (mput doc.metadata "chunk_index" (.nat 0)) "chunk_strategy" (.str "passthrough"),
    tokens⟩]

/-- The separator hierarchy of chunk_recursive. -/
def recSeps : List String := ["\n\n", "\n", ". ", " "]

/-- The word-level hard-split loop of `split` in chunk_recursive
(the `sep_idx >= len(separators)` branch): accumulate words while under
the cap; on overflow emit `" ".join(current[:-1])` and reseed the buffer
with `current[-overlap:] + [word]`. -/
def hardLoop (tc : String → Nat) (cs ov : Nat) :
    List String → List String → List String → List String × List String
  | [], result, current => (result, current)
  | w :: ws, result, current =>
    let cur2 := current ++ [w]
    if cs < tc (joinSpace cur2) then
      hardLoop tc cs ov ws (result ++ [joinSpace cur2.dropLast])
        (pyTakeLastList ov cur2 ++ [w])
    else
      hardLoop tc cs ov ws result cur2

/-- The last-resort hard split by token count of `split`. -/
def hardSplit (tc : String → Nat) (cs ov : Nat) (text : String) : List String :=
  let pr := hardLoop tc cs ov (pyWords text) [] []
  if pr.2 = [] then pr.1 else pr.1 ++ [joinSpace pr.2]

/-- The greedy packing loop over the parts of one separator level in
`split`: state is the emitted list and the running buffer; `recur` is
the re-split of an overflowing buffer at the next separator level. -/
def sepLoop (tc : String → Nat) (cs ov : Nat) (sep : String)
    (recur : String → List String) :
    List String → List String → String → List String × String
  | [], result, cur => (result, cur)
  | part :: ps, result, cur =>
    let candidate := if cur = "" then part else cur ++ sep ++ part
    if tc candidate ≤ cs then
      sepLoop tc cs ov sep recur ps result candidate
    else if cur = "" then
      sepLoop tc cs ov sep recur ps result part
    else
      let sub := recur cur
      let ot := match sub.getLast? with
        | none => ""
        | some s => pyTakeLastStr (ov * 4) s
      let cur2 := if ot = "" then part else ot ++ sep ++ part
      sepLoop tc cs ov sep recur ps (result ++ sub) cur2

/-- The recursive `split` helper of chunk_recursive, with the separator
hierarchy made explicit: a text fitting in `cs` tokens is returned whole;
with no separators left the word-level hard split runs; otherwise the
text is split by the current separator and parts are greedily packed,
recursing into the next separator level on overflow, with a character-based
overlap carry of `ov * 4` characters; empty/whitespace-only fragments are
discarded at the end of each separator level. -/
def splitRec (tc : String → Nat) (cs ov : Nat) : List String → String → List String
  | [], text =>
    if tc text ≤ cs then [text] else hardSplit tc cs ov text
  | sep :: rest, text =>
    if tc text ≤ cs then [text]
    else
      let pr := sepLoop tc cs ov sep (splitRec tc cs ov rest) (pySplit sep text) [] ""
      let result2 := if pr.2 = "" then pr.1 else pr.1 ++ splitRec tc cs ov rest pr.2
      result2.filter (fun c => pyStrip c ≠ "")

/-- chunk_recursive of chunker.py: run `split` over the full separator
hierarchy, then emit one Chunk per non-whitespace raw piece, with
`chunk_index` its position in the raw list, `chunk_total` the raw list's
length, stripped text, and the token count of the unstripped piece. -/
def chunk_recursive (tc : String → Nat) (doc : Doc) (cs ov : Nat) : List Chunk :=
  let text := doc.page_content
  let raw_chunks := splitRec tc cs ov recSeps text
  raw_chunks.enum.filterMap (fun p =>
    if pyStrip p.2 = "" then none
    else some
      ⟨pyStrip p.2,
       mput (mput (mput (mput (mput doc.metadata
         "chunk_index" (.nat p.1))
         "chunk_total" (.nat raw_chunks.length))
         "chunk_strategy" (.str "recursive"))
         "chunk_size_target" (.nat cs))
         "overlap" (.nat ov),
       tc p.2⟩)

/-- Sentence-terminal test of the regex `(?<=[.!?])\s+`. -/
def isPunct (c : Char) : Bool := c = '.' || c = '!' || c = '?'

/-- Splitting on the regex `(?<=[.!?])\s+`: scan characters, and at a
whitespace character immediately preceded by `.`, `!` or `?`, cut a piece
and swallow the whitespace run. The second argument is `some cur` with
the current piece reversed, or `none` while swallowing the run. -/
def sentScan : List Char → Option (List Char) → List String
  | [], cur? => [String.mk (cur?.getD []).reverse]
  | c :: rest, none =>
    if isWs c then sentScan rest none else sentScan rest (some [c])
  | c :: rest, some cur =>
    if isWs c && (match cur with | p :: _ => isPunct p | [] => false) then
      String.mk cur.reverse :: sentScan rest none
    else
      sentScan rest (some (c :: cur))

/-- Model of `re.split(r'(?<=[.!?])\s+', text)`. -/
def sentSplit (text : String) : List String := sentScan text.data (some [])

/-- The sentence list of chunk_sentence_window: split into sentence
units, keep the stripped sentences strictly longer than 20 characters
(Python `[s.strip() for s in sentences if len(s.strip()) > 20]`). -/
def retainedSentences (text : String) : List String :=
  (sentSplit text).filterMap (fun s =>
    if 20 < (pyStrip s).length then some (pyStrip s) else none)

/-- chunk_sentence_window of chunker.py: split into sentences, keep the
stripped sentences strictly longer than 20 characters, and emit one chunk
per retained sentence with the surrounding window in its metadata. -/
def chunk_sentence_window (tc : String → Nat) (doc : Doc) (window_size : Nat) : List Chunk :=
  let text := doc.page_content
  let sentences := retainedSentences text
  sentences.enum.map (fun p =>
    let start := p.1 - window_size
    let stop := min sentences.length (p.1 + window_size + 1)
    let window_text := joinSpace (pySlice start stop sentences)
    ⟨p.2,
     mput (mput (mput (mput (mput doc.metadata
       "chunk_index" (.nat p.1))
       "chunk_total" (.nat sentences.length))
       "chunk_strategy" (.str "sentence_window"))
       "window_text" (.str window_text))
       "window_size" (.nat window_size),
     tc p.2⟩)

/-- The format tags routed to passthrough first by chunk_document. -/
def structuredFmts : List MVal :=
  [.str "table_row", .str "excel_row", .str "key_value_table",
   .str "qa_pair", .str "inline_structured"]

/-- chunk_document of chunker.py: priority-ordered routing on the
document's `format` and `doc_type` metadata tags. -/
def chunk_document (tc : String → Nat) (doc : Doc) : List Chunk :=
  let fmt := mgetD doc.metadata "format" (.str "")
  let doc_type := mgetD doc.metadata "doc_type" (.str "")
  if fmt ∈ structuredFmts then chunk_passthrough tc doc
  else if fmt = .str "plain_text" then chunk_passthrough tc doc
  else if doc_type = .str "chef_note" then chunk_sentence_window tc doc 2
  else if fmt = .str "html_parsed" then chunk_recursive tc doc 300 50
  else if fmt = .str "text" then chunk_recursive tc doc 350 60
  else chunk_recursive tc doc 300 50

/- ── retriever.py ── -/

/-- The dietary keyword list of detect_intent. -/
def dietaryKws : List String :=
  ["vegan", "vegetarian", "gluten", "allergy", "allergen", "nut", "dairy"]

/-- The ordering keyword list of detect_intent. -/
def orderingKws : List String :=
  ["order", "delivery", "deliver", "minimum", "how long", "pick up", "pickup"]

/-- The hours keyword list of detect_intent. -/
def hoursKws : List String :=
  ["open", "hour", "close", "time", "when", "monday", "sunday", "weekend"]

/-- The booking keyword list of detect_intent. -/
def bookingKws : List String :=
  ["book", "reservation", "reserve", "table", "seat"]

/-- The menu_item keyword list of detect_intent. -/
def menuKws : List String :=
  ["menu", "food", "eat", "dish", "meal", "price", "cost", "spicy",
   "starter", "main", "dessert"]

/-- Python `any(w in q for w in kws)` over the lowercased query. -/
def anyKw (kws : List String) (q : String) : Bool :=
  kws.any (fun w => containsSub w (pyLower q))

/-- detect_intent of retriever.py: keyword matching over the lowercased
query, in the declared priority order, defaulting to "general". -/
def detect_intent (query : String) : String :=
  if anyKw dietaryKws query then "dietary"
  else if anyKw orderingKws query then "ordering"
  else if anyKw hoursKws query then "hours"
  else if anyKw bookingKws query then "booking"
  else if anyKw menuKws query then "menu_item"
  else "general"

/-- The declared priority table of the IntentClassifier, as the spec
describes it: an ordered list of category/keyword-set pairs. -/
def intentTable : List (String × List String) :=
  [("dietary", dietaryKws), ("ordering", orderingKws), ("hours", hoursKws),
   ("booking", bookingKws), ("menu_item", menuKws)]

/-- First-match classification over the declared priority table
(the spec's description of the classifier, to compare with the
source's `detect_intent`). -/
def intentByTable (query : String) : String :=
  ((intentTable.find? (fun c => anyKw c.2 query)).map Prod.fst).getD "general"

/-- A metadata filter as built by INTENT_FILTERS: either a single
exact-match clause or a single set-membership clause. -/
inductive MFilter where
  | exact (field val : String)
  | inSet (field : String) (vals : List String)
deriving DecidableEq

/-- INTENT_FILTERS of retriever.py (`general` maps to no filter, as does
any other unknown key under Python `dict.get`). -/
def INTENT_FILTERS (intent : String) : Option MFilter :=
  if intent = "dietary" then some (.exact "doc_type" "menu_item")
  else if intent = "ordering" then some (.exact "doc_type" "faq_section")
  else if intent = "hours" then
    some (.inSet "doc_type" ["restaurant_info", "faq_section"])
  else if intent = "booking" then
    some (.inSet "doc_type" ["faq_section", "restaurant_info"])
  else if intent = "menu_item" then some (.exact "doc_type" "menu_item")
  else none

/-- Model of the check `"$in" in str(filters)`: the string form of a
filter dict contains "$in" exactly when the filter is a set-membership
clause. -/
def hasDollarIn : MFilter → Bool
  | .exact _ _ => false
  | .inSet _ _ => true

/-- A raw match returned by the external vector index: document text,
metadata, and the index's native distance. -/
structure Hit where
  text : String
  metadata : Meta
  distance : ℚ

/-- The retrieval-result records built by search and search_with_filter. -/
structure RResult where
  text : String
  metadata : Meta
  distance : ℚ
  similarity : ℚ

/-- Default result used with `List.getD`. -/
def defRes : RResult := ⟨"", memp, 0, 0⟩

/-- The external vector index (ChromaDB collection) as an oracle:
an unfiltered query and a filtered query, the latter fallible
(its exceptions are what smart_retrieve catches). -/
structure VectorIndex where
  plain : String → Nat → List Hit
  filtered : String → Nat → MFilter → Except String (List Hit)

/-- Floor of a rational, computed by floor division of numerator by
denominator. -/
def ratFloor (q : ℚ) : ℤ := Int.fdiv q.num q.den

/-- Round half to even, as Python `round` on a number with an exact
rational value. -/
def rhe (q : ℚ) : ℤ :=
  let f := ratFloor q
  if q - f < 1/2 then f
  else if 1/2 < q - f then f + 1
  else if f % 2 = 0 then f else f + 1

/-- Python `round(x, 4)` on an exact rational value. -/
def round4 (q : ℚ) : ℚ := (rhe (q * 10000) : ℚ) / 10000

/-- The result-building comprehension shared by search and
search_with_filter: `similarity = round(1 - dist, 4)`. -/
def searchRes (hits : List Hit) : List RResult :=
  hits.map (fun h => ⟨h.text, h.metadata, h.distance, round4 (1 - h.distance)⟩)

/-- smart_retrieve of retriever.py: detect the intent, look up its
filter, run the filtered search only for a filter whose string form has
no "$in" (catching any error by falling back to the unfiltered search),
otherwise run the unfiltered search; finally drop results with
similarity below 0.3. -/
def smart_retrieve (idx : VectorIndex) (query : String) (k : Nat) : List RResult :=
  let intent := detect_intent query
  let filters := INTENT_FILTERS intent
  let results :=
    match filters with
    | some f =>
      if hasDollarIn f then searchRes (idx.plain query k)
      else
        match idx.filtered query k f with
        | .ok hits => searchRes hits
        | .error _ => searchRes (idx.plain query k)
    | none => searchRes (idx.plain query k)
  results.filter (fun r => (3 : ℚ)/10 ≤ r.similarity)

/-- The filtered-search-with-unfiltered-fallback step of smart_retrieve,
followed by the similarity floor (the spec's description of the path
taken by intents with a defined simple filter). -/
def fallbackSearch (idx : VectorIndex) (query : String) (k : Nat) (f : MFilter) :
    List RResult :=
  let results :=
    match idx.filtered query k f with
    | .ok hits => searchRes hits
    | .error _ => searchRes (idx.plain query k)
  results.filter (fun r => (3 : ℚ)/10 ≤ r.similarity)

/-- The unfiltered search followed by the similarity floor. -/
def plainSearch (idx : VectorIndex) (query : String) (k : Nat) : List RResult :=
  (searchRes (idx.plain query k)).filter (fun r => (3 : ℚ)/10 ≤ r.similarity)

/-- Render a natural number as decimal digits. -/
def natDigits (n : Nat) : String := toString n

/-- Drop trailing zero digits of a fractional part, keeping one digit,
as Python float repr does after the decimal point. -/
def stripZeros (l : List Char) : List Char :=
  let r := (l.reverse.dropWhile (fun c => c = '0')).reverse
  if r = [] then ['0'] else r

/-- Left-pad with zeros to four digits. -/
def pad4 (n : Nat) : List Char :=
  let d := (natDigits (n % 10000)).data
  List.replicate (4 - d.length) '0' ++ d

/-- Decimal rendering of a similarity score, modelling Python str() of
a float holding a value with at most four decimal places. -/
def simStr (q : ℚ) : String :=
  let sign := if q < 0 then "-" else ""
  let aq := if q < 0 then -q else q
  let ip := (ratFloor aq).toNat
  let fr := (ratFloor ((aq - ratFloor aq) * 10000)).toNat
  sign ++ natDigits ip ++ "." ++ String.mk (stripZeros (pad4 fr))

/-- Python `r["metadata"].get(k, d)` rendered into an f-string. -/
def metaStr (m : Meta) (k : String) (d : String) : String :=
  match m k with
  | some (.str s) => s
  | some (.nat n) => natDigits n
  | none => d

/-- One labeled block of format_context, for 1-based rank `i`. -/
def renderBlock (i : Nat) (r : RResult) : String :=
  "[Source " ++ natDigits i ++ ": " ++ metaStr r.metadata "source" "unknown" ++
  " / " ++ metaStr r.metadata "doc_type" "unknown" ++
  " | relevance: " ++ simStr r.similarity ++ "]\n" ++ r.text

/-- The context_parts loop of format_context, with `i` the rank of the
first remaining result (`enumerate(results, 1)`). -/
def buildParts (i : Nat) : List RResult → List String
  | [] => []
  | r :: rs => renderBlock i r :: buildParts (i + 1) rs

/-- The fixed sentinel string returned for an empty result list. -/
def noInfoSentinel : String := "No relevant information found in the knowledge base."

/-- format_context of retriever.py. -/
def format_context (results : List RResult) : String :=
  if results.isEmpty then noInfoSentinel
  else String.intercalate "\n\n---\n\n" (buildParts 1 results)

/- ── Concrete documents, indexes and predicates used in the theorems ── -/

/-- A hard-split word unit: non-empty and whitespace-free. -/
def okWord (w : String) : Bool := !w.data.isEmpty && w.data.all (fun c => !(isWs c))

/-- The shape of a word-level hard-split chunk: a space-join of at most
`ov + 1` non-empty whitespace-free words. -/
def hardChunkOk (ov : Nat) (s : String) : Prop :=
  ∃ ws : List String, ws.length ≤ ov + 1 ∧ (∀ w ∈ ws, okWord w = true) ∧ s = joinSpace ws

/-- The invariant of every raw piece the splitter emits: within the token
cap, or a word-level hard-split chunk. -/
def chunkOk (tc : String → Nat) (cs ov : Nat) (s : String) : Prop :=
  tc s ≤ cs ∨ hardChunkOk ov s

/-- A three-word document driving the hard split at chunk_size 1. -/
def docHW : Doc := ⟨"hello world foo", memp⟩

/-- A four-sentence document for the sentence-window contract. -/
def docSW : Doc :=
  ⟨"Great food everyone likes. Friendly staff at desk. Fast delivery always here. Clean place for sure.",
   memp⟩

/-- A document tagged with a structured format and a chef_note doc_type. -/
def docQA : Doc :=
  ⟨"q and a", mput (mput memp "format" (.str "qa_pair")) "doc_type" (.str "chef_note")⟩

/-- A document tagged only as a chef_note. -/
def docChef : Doc := ⟨"note", mput memp "doc_type" (.str "chef_note")⟩

/-- An index whose unfiltered search returns one hit at distance 1/2. -/
def idxW8 : VectorIndex := ⟨fun _ _ => [⟨"T", memp, 1/2⟩], fun _ _ _ => .ok []⟩

/-- The result smart_retrieve builds from idxW8. -/
def resW8 : RResult := ⟨"T", memp, 1/2, round4 (1 - 1/2)⟩

/-- An index whose unfiltered search returns one hit at distance 0.70004,
whose raw similarity 0.29996 rounds up to the 0.3 floor. -/
def idxLow : VectorIndex := ⟨fun _ _ => [⟨"t", memp, 70004/100000⟩], fun _ _ _ => .ok []⟩

/-- An index distinguishing the filtered search (hit "F") from the
unfiltered search (hit "P"), both at distance 0. -/
def idxA : VectorIndex :=
  ⟨fun _ _ => [⟨"P", memp, 0⟩], fun _ _ _ => .ok [⟨"F", memp, 0⟩]⟩

/- ── Helper lemmas ── -/

theorem buildPartsEq (rs : List RResult) :
    ∀ i, buildParts i rs = (List.range rs.length).map
      (fun j => renderBlock (i + j) (rs.getD j defRes)) := by
  induction rs with
  | nil => intro i; simp [buildParts]
  | cons r rest ih =>
    intro i
    rw [buildParts, ih (i + 1), List.length_cons, List.range_succ_eq_map,
      List.map_cons, List.map_map]
    refine congrArg₂ List.cons ?_ ?_
    · rw [Nat.add_zero, List.getD_cons_zero]
    · apply List.map_congr_left
      intro j _
      show renderBlock (i + 1 + j) (rest.getD j defRes) =
        renderBlock (i + (j + 1)) ((r :: rest).getD (j + 1) defRes)
      rw [List.getD_cons_succ, Nat.add_assoc, Nat.add_comm 1 j]

theorem filterMapFull {α β : Type} (f : α → Option β) (g : α → β) :
    ∀ l : List α, (∀ x ∈ l, f x = some (g x)) → l.filterMap f = l.map g := by
  intro l
  induction l with
  | nil => intro _; rfl
  | cons a as ih =>
    intro h
    rw [List.filterMap_cons, h a (by simp), List.map_cons,
      ih (fun x hx => h x (by simp [hx]))]

theorem sndMemEnum {α : Type} (l : List α) (p : Nat × α) (hp : p ∈ l.enum) :
    p.2 ∈ l := by
  obtain ⟨i, a⟩ := p
  obtain ⟨-, h2, h3⟩ := List.mem_enumFrom hp
  simp only [Nat.sub_zero, Nat.zero_add] at h2 h3
  rw [h3]
  exact List.getElem_mem h2

theorem splitRecStripNe (tc : String → Nat) (cs ov : Nat) (sep : String)
    (rest : List String) (text : String) (h : ¬ tc text ≤ cs) :
    ∀ s ∈ splitRec tc cs ov (sep :: rest) text, pyStrip s ≠ "" := by
  intro s hs
  rw [splitRec, if_neg h] at hs
  have := (List.mem_filter.mp hs).2
  simpa using this

theorem chunkRecMeta (tc : String → Nat) (doc : Doc) (cs ov : Nat)
    (hall : ∀ s ∈ splitRec tc cs ov recSeps doc.page_content, pyStrip s ≠ "")
    (i : Nat) (hi : i < (chunk_recursive tc doc cs ov).length) :
    ((chunk_recursive tc doc cs ov).getD i defChunk).metadata "chunk_index" =
      some (.nat i) ∧
    ((chunk_recursive tc doc cs ov).getD i defChunk).metadata "chunk_total" =
      some (.nat (chunk_recursive tc doc cs ov).length) ∧
    ((chunk_recursive tc doc cs ov).getD i defChunk).metadata "chunk_strategy" =
      some (.str "recursive") := by
  have hmap : chunk_recursive tc doc cs ov =
      (splitRec tc cs ov recSeps doc.page_content).enum.map (fun p =>
        ⟨pyStrip p.2,
         mput (mput (mput (mput (mput doc.metadata
           "chunk_index" (.nat p.1))
           "chunk_total" (.nat (splitRec tc cs ov recSeps doc.page_content).length))
           "chunk_strategy" (.str "recursive"))
           "chunk_size_target" (.nat cs))
           "overlap" (.nat ov),
         tc p.2⟩) := by
    rw [chunk_recursive]
    apply filterMapFull
    intro p hp
    have : pyStrip p.2 ≠ "" := hall p.2 (sndMemEnum _ p hp)
    simp [this]
  rw [hmap] at hi ⊢
  rw [List.getD_eq_getElem _ _ hi]
  simp only [List.getElem_map, List.getElem_enum, List.length_map, List.enum_length]
  refine ⟨by simp [mput], by simp [mput], by simp [mput]⟩

theorem wordsAuxOk : ∀ (l cur : List Char), (∀ c ∈ cur, isWs c = false) →
    ∀ w ∈ wordsAux l cur, w ≠ [] ∧ ∀ c ∈ w, isWs c = false := by
  intro l
  induction l with
  | nil =>
    intro cur hcur w hw
    rw [wordsAux] at hw
    by_cases hc : cur = []
    · simp [hc] at hw
    · rw [if_neg hc] at hw
      rw [List.mem_singleton.mp hw]
      refine ⟨by simpa using hc, fun c hcm => hcur c (List.mem_reverse.mp hcm)⟩
  | cons c rest ih =>
    intro cur hcur w hw
    rw [wordsAux] at hw
    by_cases hws : isWs c
    · rw [if_pos hws] at hw
      by_cases hc : cur = []
      · rw [if_pos hc] at hw
        exact ih [] (by simp) w hw
      · rw [if_neg hc] at hw
        rcases List.mem_cons.mp hw with hw1 | hw2
        · rw [hw1]
          refine ⟨by simpa using hc, fun d hdm => hcur d (List.mem_reverse.mp hdm)⟩
        · exact ih [] (by simp) w hw2
    · rw [if_neg hws] at hw
      refine ih (c :: cur) ?_ w hw
      intro d hd
      rcases List.mem_cons.mp hd with h1 | h2
      · rw [h1]; simpa using hws
      · exact hcur d h2

theorem pyWordsOk (s : String) : ∀ w ∈ pyWords s, okWord w = true := by
  intro w hw
  rw [pyWords] at hw
  obtain ⟨wl, hwl, rfl⟩ := List.mem_map.mp hw
  obtain ⟨h1, h2⟩ := wordsAuxOk s.data [] (by simp) wl hwl
  simp only [okWord, Bool.and_eq_true]
  constructor
  · simpa [List.isEmpty_iff] using h1
  · rw [List.all_eq_true]
    intro c hc
    simpa using h2 c hc

theorem pyTakeLastLen {α : Type} (n : Nat) (l : List α) (hn : 1 ≤ n) :
    (pyTakeLastList n l).length ≤ n := by
  rw [pyTakeLastList, if_neg (by omega)]
  rw [List.length_drop]
  omega

theorem pyTakeLastMem {α : Type} (n : Nat) (l : List α) (x : α)
    (hx : x ∈ pyTakeLastList n l) : x ∈ l := by
  rw [pyTakeLastList] at hx
  by_cases hn : n = 0
  · rwa [if_pos hn] at hx
  · rw [if_neg hn] at hx
    exact List.mem_of_mem_drop hx

theorem hardLoopInv (tc : String → Nat) (cs ov : Nat) (hov : 1 ≤ ov) :
    ∀ (ws result current : List String),
      (∀ w ∈ ws, okWord w = true) →
      (∀ w ∈ current, okWord w = true) →
      (tc (joinSpace current) ≤ cs ∨ current.length ≤ ov + 1) →
      (∀ s ∈ result, chunkOk tc cs ov s) →
      (∀ s ∈ (hardLoop tc cs ov ws result current).1, chunkOk tc cs ov s) ∧
      (∀ w ∈ (hardLoop tc cs ov ws result current).2, okWord w = true) ∧
      (tc (joinSpace (hardLoop tc cs ov ws result current).2) ≤ cs ∨
        (hardLoop tc cs ov ws result current).2.length ≤ ov + 1) := by
  intro ws
  induction ws with
  | nil =>
    intro result current _ hcur hinv hres
    rw [hardLoop]
    exact ⟨hres, hcur, hinv⟩
  | cons w ws2 ih =>
    intro result current hws hcur hinv hres
    rw [hardLoop]
    have hw : okWord w = true := hws w (by simp)
    have hws2 : ∀ x ∈ ws2, okWord x = true := fun x hx => hws x (by simp [hx])
    have hcur2 : ∀ x ∈ current ++ [w], okWord x = true := by
      intro x hx
      rcases List.mem_append.mp hx with h | h
      · exact hcur x h
      · rw [List.mem_singleton.mp h]; exact hw
    by_cases hbig : cs < tc (joinSpace (current ++ [w]))
    · rw [if_pos hbig]
      apply ih
      · exact hws2
      · intro x hx
        rcases List.mem_append.mp hx with h | h
        · exact hcur2 x (pyTakeLastMem ov _ x h)
        · rw [List.mem_singleton.mp h]; exact hw
      · right
        rw [List.length_append, List.length_singleton]
        have := pyTakeLastLen ov (current ++ [w]) hov
        omega
      · intro s hs
        rcases List.mem_append.mp hs with h | h
        · exact hres s h
        · rw [List.mem_singleton.mp h]
          rw [List.dropLast_concat]
          rcases hinv with h1 | h1
          · exact Or.inl h1
          · exact Or.inr ⟨current, h1, hcur, rfl⟩
    · rw [if_neg hbig]
      apply ih
      · exact hws2
      · exact hcur2
      · left; omega
      · exact hres

theorem hardSplitOk (tc : String → Nat) (cs ov : Nat) (hov : 1 ≤ ov) (text : String) :
    ∀ s ∈ hardSplit tc cs ov text, chunkOk tc cs ov s := by
  intro s hs
  rw [hardSplit] at hs
  obtain ⟨h1, h2, h3⟩ := hardLoopInv tc cs ov hov (pyWords text) [] []
    (pyWordsOk text) (by simp) (Or.inr (by simp)) (by simp)
  by_cases he : (hardLoop tc cs ov (pyWords text) [] []).2 = []
  · rw [if_pos he] at hs
    exact h1 s hs
  · rw [if_neg he] at hs
    rcases List.mem_append.mp hs with h | h
    · exact h1 s h
    · rw [List.mem_singleton.mp h]
      rcases h3 with h4 | h4
      · exact Or.inl h4
      · exact Or.inr ⟨_, h4, h2, rfl⟩

theorem sepLoopOk (tc : String → Nat) (cs ov : Nat) (sep : String)
    (recur : String → List String)
    (hrec : ∀ t s, s ∈ recur t → chunkOk tc cs ov s) :
    ∀ (parts result : List String) (cur : String),
      (∀ s ∈ result, chunkOk tc cs ov s) →
      ∀ s ∈ (sepLoop tc cs ov sep recur parts result cur).1, chunkOk tc cs ov s := by
  intro parts
  induction parts with
  | nil =>
    intro result cur hres s hs
    rw [sepLoop] at hs
    exact hres s hs
  | cons part ps ih =>
    intro result cur hres s hs
    rw [sepLoop] at hs
    by_cases h1 : tc (if cur = "" then part else cur ++ sep ++ part) ≤ cs
    · rw [if_pos h1] at hs
      exact ih result _ hres s hs
    · rw [if_neg h1] at hs
      by_cases h2 : cur = ""
      · rw [if_pos h2] at hs
        exact ih result part hres s hs
      · rw [if_neg h2] at hs
        refine ih _ _ ?_ s hs
        intro x hx
        rcases List.mem_append.mp hx with h | h
        · exact hres x h
        · exact hrec cur x h

theorem splitRecOk (tc : String → Nat) (cs ov : Nat) (hov : 1 ≤ ov) :
    ∀ (seps : List String) (text s : String),
      s ∈ splitRec tc cs ov seps text → chunkOk tc cs ov s := by
  intro seps
  induction seps with
  | nil =>
    intro text s hs
    rw [splitRec] at hs
    by_cases hfit : tc text ≤ cs
    · rw [if_pos hfit] at hs
      rw [List.mem_singleton.mp hs]
      exact Or.inl hfit
    · rw [if_neg hfit] at hs
      exact hardSplitOk tc cs ov hov text s hs
  | cons sep rest ih =>
    intro text s hs
    rw [splitRec] at hs
    by_cases hfit : tc text ≤ cs
    · rw [if_pos hfit] at hs
      rw [List.mem_singleton.mp hs]
      exact Or.inl hfit
    · rw [if_neg hfit] at hs
      have hs2 := List.mem_of_mem_filter hs
      by_cases he : (sepLoop tc cs ov sep (splitRec tc cs ov rest)
          (pySplit sep text) [] "").2 = ""
      · rw [if_pos he] at hs2
        exact sepLoopOk tc cs ov sep _ (fun t x hx => ih t x hx) _ [] ""
          (by simp) s hs2
      · rw [if_neg he] at hs2
        rcases List.mem_append.mp hs2 with h | h
        · exact sepLoopOk tc cs ov sep _ (fun t x hx => ih t x hx) _ [] ""
            (by simp) s h
        · exact ih _ s h

theorem searchResSim (hits : List Hit) :
    ∀ r ∈ searchRes hits, r.similarity = round4 (1 - r.distance) := by
  intro r hr
  simp only [searchRes, List.mem_map] at hr
  obtain ⟨a, _, rfl⟩ := hr
  rfl

/- ── Claim theorems ── -/

/-- Claim C1 (corrected): smart_retrieve runs the filtered search only
for the intents whose filter is a single exact-match clause — dietary,
ordering and menu_item — degrading to the unfiltered search when the
filtered search raises an error (the error is consumed, never returned);
hours and booking, whose filters are set-membership clauses, and general
always use the unfiltered search directly. -/
theorem smart_retrieve_filter_routing :
    (∀ idx q k, detect_intent q = "dietary" →
      smart_retrieve idx q k = fallbackSearch idx q k (.exact "doc_type" "menu_item")) ∧
    (∀ idx q k, detect_intent q = "ordering" →
      smart_retrieve idx q k = fallbackSearch idx q k (.exact "doc_type" "faq_section")) ∧
    (∀ idx q k, detect_intent q = "menu_item" →
      smart_retrieve idx q k = fallbackSearch idx q k (.exact "doc_type" "menu_item")) ∧
    (∀ idx q k, detect_intent q = "hours" ∨ detect_intent q = "booking" ∨
        detect_intent q = "general" →
      smart_retrieve idx q k = plainSearch idx q k) := by
  refine ⟨fun idx q k h => ?_, fun idx q k h => ?_, fun idx q k h => ?_, fun idx q k h => ?_⟩
  · simp only [smart_retrieve, h]; rfl
  · simp only [smart_retrieve, h]; rfl
  · simp only [smart_retrieve, h]; rfl
  · rcases h with h | h | h <;> (simp only [smart_retrieve, h]; rfl)

/-- Witness for C1: a dietary query goes through the
filtered-with-fallback path. -/
theorem smart_retrieve_filter_routing_witness :
    smart_retrieve idxW8 "vegan" 2 =
      fallbackSearch idxW8 "vegan" 2 (.exact "doc_type" "menu_item") :=
  smart_retrieve_filter_routing.1 idxW8 "vegan" 2 (by decide)

/-- Counterexample to C1 as stated: the hours intent has a defined
metadata filter and the filtered search succeeds (returning hit "F"),
yet smart_retrieve returns the unfiltered search's results (hit "P") —
the filtered search is never executed for hours. -/
theorem hours_intent_skips_filtered_search :
    detect_intent "when are you open" = "hours" ∧
    INTENT_FILTERS "hours" = some (.inSet "doc_type" ["restaurant_info", "faq_section"]) ∧
    idxA.filtered "when are you open" 4 (.inSet "doc_type" ["restaurant_info", "faq_section"]) =
      .ok [⟨"F", memp, 0⟩] ∧
    (smart_retrieve idxA "when are you open" 4).map (fun r => r.text) = ["P"] := by
  refine ⟨by decide, rfl, rfl, by with_unfolding_all rfl⟩

/-- Claim C2 (corrected): recursive and sentence-window chunks always
carry chunk_index (the chunk's position, contiguous from 0), chunk_total
(the emitted count) and chunk_strategy; passthrough chunks carry
chunk_index = 0 and chunk_strategy but the chunker adds no chunk_total
key (the key is exactly as in the source document's metadata). -/
theorem chunk_metadata_keys :
    (∀ tc doc, (chunk_passthrough tc doc).length = 1 ∧
      ∀ c ∈ chunk_passthrough tc doc,
        c.metadata "chunk_index" = some (.nat 0) ∧
        c.metadata "chunk_strategy" = some (.str "passthrough") ∧
        c.metadata "chunk_total" = doc.metadata "chunk_total") ∧
    (∀ tc doc cs ov i, i < (chunk_recursive tc doc cs ov).length →
      ((chunk_recursive tc doc cs ov).getD i defChunk).metadata "chunk_index" =
        some (.nat i) ∧
      ((chunk_recursive tc doc cs ov).getD i defChunk).metadata "chunk_total" =
        some (.nat (chunk_recursive tc doc cs ov).length) ∧
      ((chunk_recursive tc doc cs ov).getD i defChunk).metadata "chunk_strategy" =
        some (.str "recursive")) ∧
    (∀ tc doc w i, i < (chunk_sentence_window tc doc w).length →
      ((chunk_sentence_window tc doc w).getD i defChunk).metadata "chunk_index" =
        some (.nat i) ∧
      ((chunk_sentence_window tc doc w).getD i defChunk).metadata "chunk_total" =
        some (.nat (chunk_sentence_window tc doc w).length) ∧
      ((chunk_sentence_window tc doc w).getD i defChunk).metadata "chunk_strategy" =
        some (.str "sentence_window")) := by
  refine ⟨fun tc doc => ⟨rfl, fun c hc => ?_⟩, fun tc doc cs ov i hi => ?_,
    fun tc doc w i hi => ?_⟩
  · rw [chunk_passthrough] at hc
    rw [List.mem_singleton.mp hc]
    refine ⟨by simp [mput], by simp [mput], by simp [mput]⟩
  · by_cases hfit : tc doc.page_content ≤ cs
    · have hsr : splitRec tc cs ov recSeps doc.page_content = [doc.page_content] := by
        simp [recSeps, splitRec, hfit]
      have henum : ([doc.page_content].enum) = [(0, doc.page_content)] := rfl
      by_cases hne : pyStrip doc.page_content = ""
      · exfalso
        rw [chunk_recursive, hsr, henum] at hi
        simp [List.filterMap, hne] at hi
      · refine chunkRecMeta tc doc cs ov ?_ i hi
        rw [hsr]
        intro s hs
        rw [List.mem_singleton.mp hs]
        exact hne
    · exact chunkRecMeta tc doc cs ov
        (splitRecStripNe tc cs ov "\n\n" ["\n", ". ", " "] doc.page_content hfit) i hi
  · rw [chunk_sentence_window] at hi ⊢
    rw [List.getD_eq_getElem _ _ hi]
    simp only [List.getElem_map, List.getElem_enum, List.length_map, List.enum_length]
    refine ⟨by simp [mput], by simp [mput], by simp [mput]⟩

/-- Witness for C2: the single recursive chunk of a small document
carries index 0, its total and its strategy. -/
theorem chunk_metadata_keys_witness :
    0 < (chunk_recursive tcWords ⟨"hi", memp⟩ 300 50).length ∧
    ((chunk_recursive tcWords ⟨"hi", memp⟩ 300 50).getD 0 defChunk).metadata "chunk_index" =
      some (.nat 0) ∧
    ((chunk_recursive tcWords ⟨"hi", memp⟩ 300 50).getD 0 defChunk).metadata "chunk_total" =
      some (.nat (chunk_recursive tcWords ⟨"hi", memp⟩ 300 50).length) ∧
    ((chunk_recursive tcWords ⟨"hi", memp⟩ 300 50).getD 0 defChunk).metadata "chunk_strategy" =
      some (.str "recursive") :=
  ⟨by decide, chunk_metadata_keys.2.1 tcWords ⟨"hi", memp⟩ 300 50 0 (by decide)⟩

/-- Counterexample to C2 as stated: the metadata of a passthrough chunk
has no chunk_total key. -/
theorem chunk_passthrough_no_total :
    (chunk_passthrough tcWords ⟨"hi", memp⟩).length = 1 ∧
    ((chunk_passthrough tcWords ⟨"hi", memp⟩).getD 0 defChunk).metadata "chunk_index" =
      some (.nat 0) ∧
    ((chunk_passthrough tcWords ⟨"hi", memp⟩).getD 0 defChunk).metadata "chunk_total" = none :=
  ⟨rfl, rfl, rfl⟩

/-- Claim C3 (corrected): for overlap ≥ 1, every chunk emitted by
chunk_recursive either has token_count ≤ chunk_size or is (the strip of)
a space-join of at most overlap + 1 non-empty whitespace-free words —
the output of the word-level hard split, whose carry-forward buffer can
make it exceed chunk_size with more than one word; a single indivisible
oversized word is the one-word case. -/
theorem recursive_chunk_token_bound :
    ∀ (tc : String → Nat) (doc : Doc) (cs ov : Nat), 1 ≤ ov →
      ∀ c ∈ chunk_recursive tc doc cs ov,
        c.token_count ≤ cs ∨
        ∃ ws : List String, ws.length ≤ ov + 1 ∧ (∀ w ∈ ws, okWord w = true) ∧
          c.text = pyStrip (joinSpace ws) := by
  intro tc doc cs ov hov c hc
  rw [chunk_recursive] at hc
  obtain ⟨p, hp, hpc⟩ := List.mem_filterMap.mp hc
  have hok := splitRecOk tc cs ov hov recSeps doc.page_content p.2 (sndMemEnum _ p hp)
  by_cases hne : pyStrip p.2 = ""
  · rw [if_pos hne] at hpc
    exact absurd hpc (by simp)
  · rw [if_neg hne] at hpc
    obtain rfl := Option.some.inj hpc
    rcases hok with h | ⟨ws, h1, h2, h3⟩
    · exact Or.inl h
    · exact Or.inr ⟨ws, h1, h2, by rw [h3]⟩

/-- Witness for C3 at the oversized third chunk of docHW. -/
theorem recursive_chunk_token_bound_witness :
    (1 : Nat) ≤ 2 ∧
    (((chunk_recursive tcWords docHW 1 2).getD 2 defChunk).token_count ≤ 1 ∨
     ∃ ws : List String, ws.length ≤ 2 + 1 ∧ (∀ w ∈ ws, okWord w = true) ∧
       ((chunk_recursive tcWords docHW 1 2).getD 2 defChunk).text =
         pyStrip (joinSpace ws)) :=
  ⟨by decide,
   recursive_chunk_token_bound tcWords docHW 1 2 (by decide)
    ((chunk_recursive tcWords docHW 1 2).getD 2 defChunk)
    (by
      rw [List.getD_eq_getElem _ _ (by decide)]
      exact List.getElem_mem (by decide))⟩

/-- Counterexample to C3 as stated: at chunk_size 1 and overlap 2, the
third chunk of "hello world foo" is "hello world world" with
token_count 3 > 1, and it contains whitespace, so it is not a single
indivisible word-unit. -/
theorem recursive_oversized_multiword_chunk :
    ((chunk_recursive tcWords docHW 1 2).getD 2 defChunk).text = "hello world world" ∧
    ((chunk_recursive tcWords docHW 1 2).getD 2 defChunk).token_count = 3 ∧
    ("hello world world").data.any isWs = true :=
  ⟨by decide, by decide, by decide⟩

/-- Claim C4 (confirmed): chunk_document evaluates its six routing rules
in the declared priority order and stops at the first match: a structured
format or plain_text goes to passthrough even when doc_type is chef_note;
then chef_note selects the sentence window with window_size 2; then
html_parsed selects recursive splitting at (300, 50); then text selects
(350, 60); and any other tag combination falls through to (300, 50)
without error. -/
theorem chunk_document_routing :
    (∀ tc doc, (mgetD doc.metadata "format" (.str "") ∈ structuredFmts ∨
        mgetD doc.metadata "format" (.str "") = .str "plain_text") →
      chunk_document tc doc = chunk_passthrough tc doc) ∧
    (∀ tc doc, mgetD doc.metadata "format" (.str "") ∉ structuredFmts →
      mgetD doc.metadata "format" (.str "") ≠ .str "plain_text" →
      mgetD doc.metadata "doc_type" (.str "") = .str "chef_note" →
      chunk_document tc doc = chunk_sentence_window tc doc 2) ∧
    (∀ tc doc, mgetD doc.metadata "format" (.str "") ∉ structuredFmts →
      mgetD doc.metadata "format" (.str "") ≠ .str "plain_text" →
      mgetD doc.metadata "doc_type" (.str "") ≠ .str "chef_note" →
      mgetD doc.metadata "format" (.str "") = .str "html_parsed" →
      chunk_document tc doc = chunk_recursive tc doc 300 50) ∧
    (∀ tc doc, mgetD doc.metadata "format" (.str "") ∉ structuredFmts →
      mgetD doc.metadata "format" (.str "") ≠ .str "plain_text" →
      mgetD doc.metadata "doc_type" (.str "") ≠ .str "chef_note" →
      mgetD doc.metadata "format" (.str "") ≠ .str "html_parsed" →
      mgetD doc.metadata "format" (.str "") = .str "text" →
      chunk_document tc doc = chunk_recursive tc doc 350 60) ∧
    (∀ tc doc, mgetD doc.metadata "format" (.str "") ∉ structuredFmts →
      mgetD doc.metadata "format" (.str "") ≠ .str "plain_text" →
      mgetD doc.metadata "doc_type" (.str "") ≠ .str "chef_note" →
      mgetD doc.metadata "format" (.str "") ≠ .str "html_parsed" →
      mgetD doc.metadata "format" (.str "") ≠ .str "text" →
      chunk_document tc doc = chunk_recursive tc doc 300 50) := by
  refine ⟨fun tc doc h => ?_, fun tc doc h1 h2 h3 => ?_, fun tc doc h1 h2 h3 h4 => ?_,
    fun tc doc h1 h2 h3 h4 h5 => ?_, fun tc doc h1 h2 h3 h4 h5 => ?_⟩
  · rcases h with h | h
    · simp [chunk_document, h]
    · by_cases hm : mgetD doc.metadata "format" (.str "") ∈ structuredFmts
      · simp [chunk_document, hm]
      · simp [chunk_document, hm, h]
  · simp [chunk_document, h1, h2, h3]
  · simp [chunk_document, structuredFmts, h1, h2, h3, h4]
  · simp [chunk_document, structuredFmts, h1, h2, h3, h4, h5]
  · simp [chunk_document, h1, h2, h3, h4, h5]

/-- Witness for C4: a qa_pair-format chef note routes to passthrough,
and a format-less chef note routes to the sentence window. -/
theorem chunk_document_routing_witness :
    chunk_document tcWords docQA = chunk_passthrough tcWords docQA ∧
    chunk_document tcWords docChef = chunk_sentence_window tcWords docChef 2 :=
  ⟨chunk_document_routing.1 tcWords docQA (Or.inl (by decide)),
   chunk_document_routing.2.1 tcWords docChef (by decide) (by decide) (by decide)⟩

/-- Claim C5 (corrected): chunk_sentence_window splits the text at
punctuation-terminal boundaries and retains the stripped sentences
strictly longer than 20 characters (a 20-character sentence is dropped,
unlike the claim's "not shorter than 20"); it emits one chunk per
retained sentence, whose text is that sentence alone and whose
window_text metadata joins the retained sentences with indices in
[max(0, i - w), min(N, i + w + 1)). -/
theorem sentence_window_contract :
    ∀ (tc : String → Nat) (doc : Doc) (w : Nat),
      (chunk_sentence_window tc doc w).length =
        (retainedSentences doc.page_content).length ∧
      ∀ i, i < (retainedSentences doc.page_content).length →
        ((chunk_sentence_window tc doc w).getD i defChunk).text =
          (retainedSentences doc.page_content).getD i "" ∧
        ((chunk_sentence_window tc doc w).getD i defChunk).metadata "window_text" =
          some (.str (joinSpace (pySlice (i - w)
            (min (retainedSentences doc.page_content).length (i + w + 1))
            (retainedSentences doc.page_content)))) := by
  intro tc doc w
  have hlen : (chunk_sentence_window tc doc w).length =
      (retainedSentences doc.page_content).length := by
    simp [chunk_sentence_window]
  refine ⟨hlen, fun i hi => ?_⟩
  have hi2 : i < (chunk_sentence_window tc doc w).length := by omega
  rw [List.getD_eq_getElem _ _ hi2]
  simp only [chunk_sentence_window, List.getElem_map, List.getElem_enum]
  constructor
  · rw [List.getD_eq_getElem _ _ hi]
  · simp [mput]

/-- Witness for C5 at the second sentence of the four-sentence docSW
with window_size 1: the window covers sentences 0 to 2. -/
theorem sentence_window_contract_witness :
    1 < (retainedSentences docSW.page_content).length ∧
    ((chunk_sentence_window tcWords docSW 1).getD 1 defChunk).text =
      (retainedSentences docSW.page_content).getD 1 "" ∧
    ((chunk_sentence_window tcWords docSW 1).getD 1 defChunk).metadata "window_text" =
      some (.str (joinSpace (pySlice 0
        (min (retainedSentences docSW.page_content).length 3)
        (retainedSentences docSW.page_content)))) :=
  ⟨by decide, (sentence_window_contract tcWords docSW 1).2 1 (by decide)⟩

/-- Counterexample to C5 as stated: a document that is one sentence of
exactly 20 characters ("not shorter than 20") yields no chunks, because
the code keeps only sentences with strip length strictly greater
than 20. -/
theorem sentence_window_drops_20char_sentence :
    sentSplit "abcdefghijklmnopqrs." = ["abcdefghijklmnopqrs."] ∧
    (pyStrip "abcdefghijklmnopqrs.").length = 20 ∧
    chunk_sentence_window tcWords ⟨"abcdefghijklmnopqrs.", memp⟩ 3 = [] :=
  ⟨rfl, by decide, rfl⟩

/-- Claim C6 (corrected): for a document whose content fits in
chunk_size tokens and strips to a non-empty string, chunk_recursive
returns exactly one chunk whose text is the whitespace-trimmed input; a
whitespace-only document instead yields no chunks. -/
theorem recursive_small_doc :
    ∀ (tc : String → Nat) (doc : Doc) (cs ov : Nat),
      tc doc.page_content ≤ cs → pyStrip doc.page_content ≠ "" →
      (chunk_recursive tc doc cs ov).length = 1 ∧
      ((chunk_recursive tc doc cs ov).getD 0 defChunk).text = pyStrip doc.page_content := by
  intro tc doc cs ov hfit hne
  have hsr : splitRec tc cs ov recSeps doc.page_content = [doc.page_content] := by
    simp [recSeps, splitRec, hfit]
  rw [chunk_recursive, hsr]
  simp [List.filterMap, hne, List.enum]

/-- Witness for C6 on the two-word document "hi there". -/
theorem recursive_small_doc_witness :
    tcWords "hi there" ≤ 10 ∧ pyStrip "hi there" ≠ "" ∧
    (chunk_recursive tcWords ⟨"hi there", memp⟩ 10 2).length = 1 ∧
    ((chunk_recursive tcWords ⟨"hi there", memp⟩ 10 2).getD 0 defChunk).text =
      pyStrip "hi there" :=
  ⟨by decide, by decide, recursive_small_doc tcWords ⟨"hi there", memp⟩ 10 2 (by decide) (by decide)⟩

/-- Counterexample to C6 as stated: a whitespace-only document fits in
the token cap yet yields zero chunks, not one chunk equal to the trimmed
(empty) input. -/
theorem recursive_whitespace_doc_empty :
    tcWords " " ≤ 300 ∧ chunk_recursive tcWords ⟨" ", memp⟩ 300 50 = [] :=
  ⟨by decide, rfl⟩

/-- Claim C7 (confirmed): detect_intent is deterministic and equals
first-match over the declared priority table dietary, ordering, hours,
booking, menu_item; a query matching both dietary and booking keywords
is dietary, and a query matching no category is general. -/
theorem detect_intent_priority_order :
    (∀ q : String, detect_intent q = intentByTable q) ∧
    (∀ q : String, anyKw dietaryKws q = true → anyKw bookingKws q = true →
      detect_intent q = "dietary") ∧
    (∀ q : String, (∀ c ∈ intentTable, anyKw c.2 q = false) →
      detect_intent q = "general") := by
  refine ⟨fun q => ?_, fun q h1 _ => by simp [detect_intent, h1], fun q h => ?_⟩
  · unfold detect_intent intentByTable intentTable
    cases h1 : anyKw dietaryKws q <;> cases h2 : anyKw orderingKws q <;>
      cases h3 : anyKw hoursKws q <;> cases h4 : anyKw bookingKws q <;>
      cases h5 : anyKw menuKws q <;>
      simp [List.find?, h1, h2, h3, h4, h5]
  · have h1 := h ("dietary", dietaryKws) (by simp [intentTable])
    have h2 := h ("ordering", orderingKws) (by simp [intentTable])
    have h3 := h ("hours", hoursKws) (by simp [intentTable])
    have h4 := h ("booking", bookingKws) (by simp [intentTable])
    have h5 := h ("menu_item", menuKws) (by simp [intentTable])
    simp only at h1 h2 h3 h4 h5
    simp [detect_intent, h1, h2, h3, h4, h5]

/-- Witness for C7: "vegan table" holds a dietary and a booking keyword
and is classified dietary. -/
theorem detect_intent_priority_order_witness :
    detect_intent "vegan table" = "dietary" :=
  detect_intent_priority_order.2.1 "vegan table" (by decide) (by decide)

/-- Claim C8 (corrected): every result smart_retrieve returns has its
stored similarity — round(1 - distance, 4), not the raw 1 - distance —
at least 0.3; results below that stored floor are dropped and the empty
list is a possible output; rounding can keep a result whose raw
1 - distance is just below 0.3. -/
theorem smart_retrieve_similarity_floor :
    (∀ idx q k, ∀ r ∈ smart_retrieve idx q k,
      (3 : ℚ)/10 ≤ r.similarity ∧ r.similarity = round4 (1 - r.distance)) ∧
    (∀ q k, smart_retrieve ⟨fun _ _ => [], fun _ _ _ => .ok []⟩ q k = []) := by
  constructor
  · intro idx q k r hr
    simp only [smart_retrieve] at hr
    rw [List.mem_filter] at hr
    obtain ⟨hmem, hle⟩ := hr
    refine ⟨by simpa using hle, ?_⟩
    split at hmem
    · split at hmem
      · exact searchResSim _ r hmem
      · split at hmem
        · exact searchResSim _ r hmem
        · exact searchResSim _ r hmem
    · exact searchResSim _ r hmem
  · intro q k
    simp only [smart_retrieve]
    rcases hIF : INTENT_FILTERS (detect_intent q) with _ | f
    · simp [searchRes]
    · cases hD : hasDollarIn f <;> simp [hD, searchRes]

/-- Witness for C8: the single result built from a hit at distance 1/2
has similarity 1/2 = round4(1 - 1/2) and passes the floor. -/
theorem smart_retrieve_similarity_floor_witness :
    (3 : ℚ)/10 ≤ resW8.similarity ∧ resW8.similarity = round4 (1 - resW8.distance) :=
  smart_retrieve_similarity_floor.1 idxW8 "zzz" 4 resW8 (by
    have h : smart_retrieve idxW8 "zzz" 4 = [resW8] := by with_unfolding_all rfl
    rw [h]
    exact List.mem_singleton.mpr rfl)

/-- Counterexample to C8 as stated: a hit at distance 0.70004 is
returned — its stored similarity rounds up to exactly 0.3 — although its
raw 1 - distance is 0.29996 < 0.3. -/
theorem smart_retrieve_rounded_floor_leak :
    (smart_retrieve idxLow "zzz" 4).map (fun r => r.similarity) = [3/10] ∧
    (smart_retrieve idxLow "zzz" 4).map (fun r => 1 - r.distance) = [29996/100000] ∧
    (29996/100000 : ℚ) < 3/10 :=
  ⟨by with_unfolding_all rfl, by with_unfolding_all rfl, by norm_num⟩

/-- Claim C9 (confirmed): format_context on an empty result list returns
the fixed non-empty sentinel, and on a non-empty list renders one
labeled block per result in input order with 1-based ranks, joined by
the fixed delimiter. -/
theorem format_context_sentinel :
    format_context [] = noInfoSentinel ∧
    noInfoSentinel ≠ "" ∧
    (∀ rs : List RResult, rs ≠ [] →
      format_context rs = String.intercalate "\n\n---\n\n"
        ((List.range rs.length).map (fun j => renderBlock (1 + j) (rs.getD j defRes)))) := by
  refine ⟨rfl, by decide, fun rs h => ?_⟩
  rw [format_context, if_neg (by simp [h]), buildPartsEq rs 1]

/-- Witness for C9 on a one-element result list. -/
theorem format_context_sentinel_witness :
    format_context [defRes] = String.intercalate "\n\n---\n\n"
      ((List.range 1).map (fun j => renderBlock (1 + j) ([defRes].getD j defRes))) :=
  format_context_sentinel.2.2 [defRes] (by simp)

/-- Claim C10 (confirmed): a query is classified dietary exactly when
its lowercased text contains a dietary keyword as a contiguous
substring; in particular "how many minutes for it" is dietary because
"minutes" contains "nut". -/
theorem dietary_substring_match :
    (∀ q : String, detect_intent q = "dietary" ↔ anyKw dietaryKws q = true) ∧
    detect_intent "how many minutes for it" = "dietary" := by
  refine ⟨fun q => ?_, by decide⟩
  unfold detect_intent
  cases h1 : anyKw dietaryKws q <;> cases h2 : anyKw orderingKws q <;>
    cases h3 : anyKw hoursKws q <;> cases h4 : anyKw bookingKws q <;>
    cases h5 : anyKw menuKws q <;> simp

/-- Witness for C10: "minutes" alone is classified dietary via the
substring "nut". -/
theorem dietary_substring_match_witness :
    detect_intent "minutes" = "dietary" :=
  (dietary_substring_match.1 "minutes").mpr (by decide)
